import Mathlib

set_option maxHeartbeats 1000000
set_option maxRecDepth 4000

/-!
Verification of the neuro-feedback core pipeline: the flow-state detector
(flow-state.ts), the coherence scorer, the FFT band-power extraction
(fft-processor.ts) and the band normalization / smoothing state of the
device handler (muse-handler.ts).

Modelling conventions:
- JavaScript numbers are modelled as rationals.  NaN only matters for the
  OSC argument parsing path, where it is modelled explicitly (JSNum).
- Square roots and the trigonometric twiddle/window tables (irrational in
  general) are passed as parameters; no claim settled here depends on
  their concrete values.
- In-place Float32Array updates are modelled as functional list updates
  with the JavaScript out-of-range semantics of TypedArray writes
  (out-of-range writes are dropped, out-of-range reads give the default).
-/

/-- Five relative band powers, from types.ts (BrainwaveBands). -/
structure BrainwaveBands where
  delta : ℚ
  theta : ℚ
  alpha : ℚ
  beta : ℚ
  gamma : ℚ
deriving Repr, DecidableEq

/-- Configuration of the flow-state detector (flow-state.ts, FlowStateConfig,
the variant with the signal-validity gate). -/
structure FlowStateConfig where
  sustainedMs : ℚ
  varianceThreshold : ℚ
  noiseThreshold : ℚ
  betaAlphaRatioThreshold : ℚ
  minSignalPower : ℚ
  minVariance : ℚ
deriving Repr, DecidableEq

/-- DEFAULT_CONFIG of flow-state.ts. -/
def DEFAULT_CONFIG : FlowStateConfig :=
  { sustainedMs := 5000
    varianceThreshold := 0.15
    noiseThreshold := 0.3
    betaAlphaRatioThreshold := 1
    minSignalPower := 0.05
    minVariance := 0.001 }

/-- Per-tick output of the detector (types.ts, FlowState). -/
structure FlowState where
  isActive : Bool
  sustainedMs : ℚ
  betaAlphaRatio : ℚ
  signalVariance : ℚ
  noiseLevel : ℚ
deriving Repr, DecidableEq

/-- Mutable state of a FlowStateDetector instance. -/
structure DetectorState where
  conditionMetSince : Option ℚ
  recentAlphaValues : List ℚ
  recentBetaValues : List ℚ
  isActive : Bool
deriving Repr, DecidableEq

/-- Detector state as set up by the FlowStateDetector constructor. -/
def DetectorState.initial : DetectorState :=
  { conditionMetSince := none
    recentAlphaValues := []
    recentBetaValues := []
    isActive := false }

/-- historyLength field of FlowStateDetector (about one second at 30 fps). -/
def FlowStateDetector.historyLength : ℕ := 30

/-- calculateVariance of flow-state.ts: population variance, 0 for fewer
than two values. -/
def calculateVariance (values : List ℚ) : ℚ :=
  if values.length < 2 then 0
  else
    let mean := values.sum / values.length
    ((values.map fun v => (v - mean) ^ 2).sum) / values.length

/-- The paired shift loop of FlowStateDetector.update: while the alpha
history is longer than historyLength, drop the head of both histories.
The first argument is structural fuel; the length of the first list is
always enough fuel for the loop to run to completion. -/
def trimRecentAux : ℕ → List ℚ → List ℚ → List ℚ × List ℚ
  | 0, a, b => (a, b)
  | fuel + 1, a, b =>
    if a.length > FlowStateDetector.historyLength then
      trimRecentAux fuel a.tail b.tail
    else (a, b)

/-- Trim the two recent-value histories to historyLength entries. -/
def trimRecent (a b : List ℚ) : List ℚ × List ℚ :=
  trimRecentAux a.length a b

/-- JavaScript truthiness of a nullable number: null and 0 are falsy. -/
def numTruthy : Option ℚ → Bool
  | none => false
  | some q => decide (q ≠ 0)

/-- The per-tick quantities computed at the top of FlowStateDetector.update
(flow-state.ts, gated variant): updated histories, total power, metrics and
the signal-validity / conditions-met predicates. -/
structure TickMetrics where
  recentAlpha : List ℚ
  recentBeta : List ℚ
  totalPower : ℚ
  betaAlphaRatio : ℚ
  signalVariance : ℚ
  noiseLevel : ℚ
  signalValid : Bool
  conditionsMet : Bool
deriving Repr, DecidableEq

/-- Metric computation of FlowStateDetector.update, transcribed from
flow-state.ts lines 48-88 of the gated variant. -/
def computeMetrics (cfg : FlowStateConfig) (st : DetectorState)
    (bands : BrainwaveBands) (motionLevel electrodeContactQuality : ℚ) :
    TickMetrics :=
  let p := trimRecent (st.recentAlphaValues ++ [bands.alpha])
    (st.recentBetaValues ++ [bands.beta])
  let totalPower :=
    bands.alpha + bands.beta + bands.gamma + bands.theta + bands.delta
  let ratio := if bands.alpha > 0.01 then bands.beta / bands.alpha else 10
  let sv := calculateVariance (p.1 ++ p.2)
  let noise := motionLevel + bands.gamma * 0.5
  let hasMinPower := decide (totalPower ≥ cfg.minSignalPower)
  let hasMinVariance := decide (sv ≥ cfg.minVariance)
  let hasGoodContact := decide (electrodeContactQuality ≥ 0.5)
  let hasAlpha := decide (bands.alpha ≥ 0.02)
  let signalValid := hasMinPower && hasMinVariance && hasGoodContact && hasAlpha
  let met := signalValid && decide (ratio < cfg.betaAlphaRatioThreshold)
    && decide (sv < cfg.varianceThreshold)
    && decide (noise < cfg.noiseThreshold)
  { recentAlpha := p.1
    recentBeta := p.2
    totalPower := totalPower
    betaAlphaRatio := ratio
    signalVariance := sv
    noiseLevel := noise
    signalValid := signalValid
    conditionsMet := met }

/-- FlowStateDetector.update (flow-state.ts, gated variant): returns the
successor detector state together with the FlowState output of the tick.
The wall-clock reading Date.now() is passed as the argument now. -/
def FlowStateDetector.update (cfg : FlowStateConfig) (st : DetectorState)
    (bands : BrainwaveBands) (motionLevel electrodeContactQuality now : ℚ) :
    DetectorState × FlowState :=
  let m := computeMetrics cfg st bands motionLevel electrodeContactQuality
  let since1 : Option ℚ :=
    if m.conditionsMet then some (st.conditionMetSince.getD now) else none
  let isActive1 : Bool := if m.conditionsMet then st.isActive else false
  let sustained : ℚ := if numTruthy since1 then now - since1.getD 0 else 0
  let isActive2 : Bool :=
    if (!isActive1) && decide (cfg.sustainedMs ≤ sustained) then true
    else isActive1
  (⟨since1, m.recentAlpha, m.recentBeta, isActive2⟩,
   ⟨isActive2, sustained, m.betaAlphaRatio, m.signalVariance, m.noiseLevel⟩)

/-- One simulated tick of input for the detector. -/
structure TickInput where
  bands : BrainwaveBands
  motionLevel : ℚ
  electrodeQuality : ℚ
  now : ℚ
deriving Repr, DecidableEq

/-- Run the detector over a list of ticks, collecting each tick's successor
state and output. -/
def runDetector (cfg : FlowStateConfig) :
    DetectorState → List TickInput → List (DetectorState × FlowState)
  | _, [] => []
  | st, t :: ts =>
    let r := FlowStateDetector.update cfg st t.bands t.motionLevel
      t.electrodeQuality t.now
    r :: runDetector cfg r.1 ts

/-- Decidable statement that conditionsMet evaluates to true at every tick
of a run starting from the given state. -/
def allTicksMet (cfg : FlowStateConfig) :
    DetectorState → List TickInput → Bool
  | _, [] => true
  | st, t :: ts =>
    (computeMetrics cfg st t.bands t.motionLevel t.electrodeQuality).conditionsMet
      && allTicksMet cfg
        (FlowStateDetector.update cfg st t.bands t.motionLevel
          t.electrodeQuality t.now).1 ts

/-- Default element used to index detector runs. -/
def defaultRunEntry : DetectorState × FlowState :=
  (DetectorState.initial, ⟨false, 0, 0, 0, 0⟩)

/-- Default tick used to index tick lists. -/
def defaultTick : TickInput := ⟨⟨0, 0, 0, 0, 0⟩, 0, 0, 0⟩

/-- Output of the i-th tick of a run. -/
def outAt (l : List (DetectorState × FlowState)) (i : ℕ) : FlowState :=
  (l.getD i defaultRunEntry).2

/-- Signal-quality gate as the specification words it: a conjunction of the
four validity comparisons over total power, trailing variance, electrode
quality and alpha. -/
def gateValidSpec (cfg : FlowStateConfig)
    (totalPower variance electrodeQuality alpha : ℚ) : Bool :=
  decide (totalPower ≥ cfg.minSignalPower) && decide (variance ≥ cfg.minVariance)
    && decide (electrodeQuality ≥ 0.5) && decide (alpha ≥ 0.02)

/-- calculateCoherence from flow-state.ts (gated variant, with the
electrodeQuality parameter).  The square root used by the stability score
is passed as the parameter sq. -/
def calculateCoherence (sq : ℚ → ℚ) (bands : BrainwaveBands)
    (variance electrodeQuality : ℚ) : ℚ :=
  let totalPower :=
    bands.alpha + bands.beta + bands.gamma + bands.theta + bands.delta
  if totalPower < 0.05 then 0.1
  else if electrodeQuality < 0.5 then 0.15
  else if bands.alpha < 0.01 then 0.2
  else
    let alphaRelative := bands.alpha / totalPower
    let alphaScore := min 1 (alphaRelative * 3)
    let betaAlphaRatio := if bands.alpha > 0.01 then bands.beta / bands.alpha else 2
    let ratioScore := max 0 (min 1 (1.5 - betaAlphaRatio))
    let thetaRelative := bands.theta / totalPower
    let thetaScore := min 1 (thetaRelative * 2.5)
    let stabilityScore := max 0 (1 - sq variance * 3)
    let coherence := alphaScore * 0.35 + ratioScore * 0.25 + thetaScore * 0.2
      + stabilityScore * 0.2
    max 0 (min 1 coherence)

/-- Total band power as computed inside calculateCoherence. -/
def coherenceTotalPower (bands : BrainwaveBands) : ℚ :=
  bands.alpha + bands.beta + bands.gamma + bands.theta + bands.delta

/-- C2: calculateCoherence evaluates its guard clauses in order with the
first match winning: total power below 0.05 gives exactly 0.1 whatever the
other inputs; otherwise electrode quality below 0.5 gives exactly 0.15;
otherwise alpha below 0.01 gives exactly 0.2; and only when no guard
matches is the weighted score computed. -/
theorem calculateCoherence_guard_order (sq : ℚ → ℚ) (bands : BrainwaveBands)
    (variance electrodeQuality : ℚ) :
    (coherenceTotalPower bands < 0.05 →
      calculateCoherence sq bands variance electrodeQuality = 0.1) ∧
    (¬ coherenceTotalPower bands < 0.05 → electrodeQuality < 0.5 →
      calculateCoherence sq bands variance electrodeQuality = 0.15) ∧
    (¬ coherenceTotalPower bands < 0.05 → ¬ electrodeQuality < 0.5 →
      bands.alpha < 0.01 →
      calculateCoherence sq bands variance electrodeQuality = 0.2) ∧
    (¬ coherenceTotalPower bands < 0.05 → ¬ electrodeQuality < 0.5 →
      ¬ bands.alpha < 0.01 →
      calculateCoherence sq bands variance electrodeQuality =
        max 0 (min 1
          (min 1 (bands.alpha / coherenceTotalPower bands * 3) * 0.35
            + max 0 (min 1 (1.5 -
                (if bands.alpha > 0.01 then bands.beta / bands.alpha else 2))) * 0.25
            + min 1 (bands.theta / coherenceTotalPower bands * 2.5) * 0.2
            + max 0 (1 - sq variance * 3) * 0.2))) := by
  unfold calculateCoherence coherenceTotalPower
  refine ⟨fun h1 => by simp only [if_pos h1],
          fun h1 h2 => by simp only [if_neg h1, if_pos h2],
          fun h1 h2 h3 => by simp only [if_neg h1, if_neg h2, if_pos h3],
          fun h1 h2 h3 => by simp only [if_neg h1, if_neg h2, if_neg h3]⟩

/-- Witness for C2: the guard theorem applied at the concrete inputs named
by the specification (total power 0.04 with perfect contact; contact 0.3
with total power 0.5; undetectable alpha with a healthy signal). -/
theorem calculateCoherence_guard_order_witness :
    calculateCoherence id ⟨0.01, 0.01, 0.01, 0.005, 0.005⟩ 0 1 = 0.1 ∧
    calculateCoherence id ⟨0.1, 0.1, 0.1, 0.1, 0.1⟩ 0 0.3 = 0.15 ∧
    calculateCoherence id ⟨0.2, 0.2, 0.005, 0.2, 0.2⟩ 0 1 = 0.2 :=
  ⟨(calculateCoherence_guard_order id ⟨0.01, 0.01, 0.01, 0.005, 0.005⟩ 0 1).1
      (by with_unfolding_all decide),
   (calculateCoherence_guard_order id ⟨0.1, 0.1, 0.1, 0.1, 0.1⟩ 0 0.3).2.1
      (by with_unfolding_all decide) (by with_unfolding_all decide),
   (calculateCoherence_guard_order id ⟨0.2, 0.2, 0.005, 0.2, 0.2⟩ 0 1).2.2.1
      (by with_unfolding_all decide) (by with_unfolding_all decide) (by with_unfolding_all decide)⟩

/-- C3: the per-tick signal-quality gate computed by FlowStateDetector.update
coincides with the specification's four-way validity conjunction, the
conditions-met predicate is the conjunction of gate validity with the three
threshold comparisons, and an invalid gate alone resets the accumulation
timer for the tick (no start timestamp survives, the reported sustained
time is 0). -/
theorem signal_gate_and_conditions (cfg : FlowStateConfig) (st : DetectorState)
    (bands : BrainwaveBands) (motionLevel electrodeContactQuality now : ℚ) :
    ((computeMetrics cfg st bands motionLevel electrodeContactQuality).signalValid
      = gateValidSpec cfg
          (computeMetrics cfg st bands motionLevel electrodeContactQuality).totalPower
          (computeMetrics cfg st bands motionLevel electrodeContactQuality).signalVariance
          electrodeContactQuality bands.alpha) ∧
    ((computeMetrics cfg st bands motionLevel electrodeContactQuality).conditionsMet
      = ((computeMetrics cfg st bands motionLevel electrodeContactQuality).signalValid
          && decide ((computeMetrics cfg st bands motionLevel electrodeContactQuality).betaAlphaRatio
              < cfg.betaAlphaRatioThreshold)
          && decide ((computeMetrics cfg st bands motionLevel electrodeContactQuality).signalVariance
              < cfg.varianceThreshold)
          && decide ((computeMetrics cfg st bands motionLevel electrodeContactQuality).noiseLevel
              < cfg.noiseThreshold))) ∧
    ((computeMetrics cfg st bands motionLevel electrodeContactQuality).signalValid = false →
      (FlowStateDetector.update cfg st bands motionLevel electrodeContactQuality now).1.conditionMetSince
        = none ∧
      (FlowStateDetector.update cfg st bands motionLevel electrodeContactQuality now).2.sustainedMs
        = 0) := by
  refine ⟨rfl, rfl, fun hinv => ?_⟩
  have hmet : (computeMetrics cfg st bands motionLevel electrodeContactQuality).conditionsMet
      = false := by
    simp only [computeMetrics] at hinv ⊢
    simp [hinv]
  simp [FlowStateDetector.update, hmet, numTruthy]

/-- Witness for C3: a tick whose gate is invalid (all-zero bands) resets the
timer and reports zero sustained time. -/
theorem signal_gate_and_conditions_witness :
    (computeMetrics DEFAULT_CONFIG DetectorState.initial ⟨0, 0, 0, 0, 0⟩ 0 0).signalValid
      = false ∧
    (FlowStateDetector.update DEFAULT_CONFIG DetectorState.initial
        ⟨0, 0, 0, 0, 0⟩ 0 0 1000).1.conditionMetSince = none :=
  ⟨by with_unfolding_all decide,
   ((signal_gate_and_conditions DEFAULT_CONFIG DetectorState.initial
      ⟨0, 0, 0, 0, 0⟩ 0 0 1000).2.2 (by with_unfolding_all decide)).1⟩

/-- C8: the beta/alpha ratio computed each tick is the guarded quotient:
beta divided by alpha when alpha exceeds 0.01 (a nonzero divisor), and the
sentinel 10 otherwise, so no division by a zero alpha is ever performed. -/
theorem betaAlphaRatio_guarded (cfg : FlowStateConfig) (st : DetectorState)
    (bands : BrainwaveBands) (motionLevel electrodeContactQuality : ℚ) :
    (bands.alpha > 0.01 →
      (computeMetrics cfg st bands motionLevel electrodeContactQuality).betaAlphaRatio
          = bands.beta / bands.alpha
        ∧ bands.alpha ≠ 0) ∧
    (¬ bands.alpha > 0.01 →
      (computeMetrics cfg st bands motionLevel electrodeContactQuality).betaAlphaRatio
        = 10) := by
  constructor
  · intro h
    refine ⟨by simp [computeMetrics, if_pos h], fun h0 => ?_⟩
    rw [h0] at h
    norm_num at h
  · intro h
    simp [computeMetrics, if_neg h]

/-- Witness for C8: both branches of the guarded ratio at concrete bands. -/
theorem betaAlphaRatio_guarded_witness :
    (computeMetrics DEFAULT_CONFIG DetectorState.initial
        ⟨0, 0, 0.5, 0.25, 0⟩ 0 0).betaAlphaRatio = (0.25 : ℚ) / 0.5 ∧
    (computeMetrics DEFAULT_CONFIG DetectorState.initial
        ⟨0, 0, 0.005, 0.25, 0⟩ 0 0).betaAlphaRatio = 10 :=
  ⟨((betaAlphaRatio_guarded DEFAULT_CONFIG DetectorState.initial
      ⟨0, 0, 0.5, 0.25, 0⟩ 0 0).1 (by with_unfolding_all decide)).1,
   (betaAlphaRatio_guarded DEFAULT_CONFIG DetectorState.initial
      ⟨0, 0, 0.005, 0.25, 0⟩ 0 0).2 (by with_unfolding_all decide)⟩

/-- A tick whose conditions fail resets the timer: the start timestamp is
cleared and the output reports zero sustained time.  The output active flag
reduces to the comparison of the configured sustain duration with 0. -/
theorem update_not_met (cfg : FlowStateConfig) (st : DetectorState)
    (bands : BrainwaveBands) (mo eq now : ℚ)
    (h : (computeMetrics cfg st bands mo eq).conditionsMet = false) :
    FlowStateDetector.update cfg st bands mo eq now =
      (⟨none, (computeMetrics cfg st bands mo eq).recentAlpha,
          (computeMetrics cfg st bands mo eq).recentBeta,
          decide (cfg.sustainedMs ≤ 0)⟩,
       ⟨decide (cfg.sustainedMs ≤ 0), 0,
          (computeMetrics cfg st bands mo eq).betaAlphaRatio,
          (computeMetrics cfg st bands mo eq).signalVariance,
          (computeMetrics cfg st bands mo eq).noiseLevel⟩) := by
  simp only [FlowStateDetector.update, h]
  cases hd : decide (cfg.sustainedMs ≤ (0 : ℚ)) <;>
    simp [numTruthy, hd]

/-- A tick whose conditions hold, taken from a state with a nonzero recorded
start timestamp, keeps the timestamp, reports the elapsed time and activates
exactly when the previous flag was set or the elapsed time reaches the
configured duration. -/
theorem update_met_some (cfg : FlowStateConfig) (st : DetectorState)
    (bands : BrainwaveBands) (mo eq now : ℚ) (s : ℚ)
    (h : (computeMetrics cfg st bands mo eq).conditionsMet = true)
    (hs : st.conditionMetSince = some s) (hs0 : s ≠ 0) :
    FlowStateDetector.update cfg st bands mo eq now =
      (⟨some s, (computeMetrics cfg st bands mo eq).recentAlpha,
          (computeMetrics cfg st bands mo eq).recentBeta,
          st.isActive || decide (cfg.sustainedMs ≤ now - s)⟩,
       ⟨st.isActive || decide (cfg.sustainedMs ≤ now - s), now - s,
          (computeMetrics cfg st bands mo eq).betaAlphaRatio,
          (computeMetrics cfg st bands mo eq).signalVariance,
          (computeMetrics cfg st bands mo eq).noiseLevel⟩) := by
  simp only [FlowStateDetector.update, h, hs]
  cases ha : st.isActive <;>
    cases hd : decide (cfg.sustainedMs ≤ now - s) <;>
      simp [numTruthy, hs0, hd]

/-- A tick whose conditions hold, taken from a state with no recorded start
timestamp, records the current time as the start and reports zero sustained
time. -/
theorem update_met_none (cfg : FlowStateConfig) (st : DetectorState)
    (bands : BrainwaveBands) (mo eq now : ℚ)
    (h : (computeMetrics cfg st bands mo eq).conditionsMet = true)
    (hs : st.conditionMetSince = none) :
    FlowStateDetector.update cfg st bands mo eq now =
      (⟨some now, (computeMetrics cfg st bands mo eq).recentAlpha,
          (computeMetrics cfg st bands mo eq).recentBeta,
          st.isActive || decide (cfg.sustainedMs ≤ 0)⟩,
       ⟨st.isActive || decide (cfg.sustainedMs ≤ 0), 0,
          (computeMetrics cfg st bands mo eq).betaAlphaRatio,
          (computeMetrics cfg st bands mo eq).signalVariance,
          (computeMetrics cfg st bands mo eq).noiseLevel⟩) := by
  simp only [FlowStateDetector.update, h, hs]
  by_cases h0 : now = (0 : ℚ)
  · cases ha : st.isActive <;>
      cases hd : decide (cfg.sustainedMs ≤ (0 : ℚ)) <;>
        simp_all [numTruthy]
  · cases ha : st.isActive <;>
      cases hd : decide (cfg.sustainedMs ≤ (0 : ℚ)) <;>
        simp_all [numTruthy, sub_self]

/-- Invariant of a run all of whose ticks meet the flow conditions, started
from a state carrying a nonzero start timestamp: every tick reports the
elapsed time since that timestamp and is active exactly when the elapsed
time has reached the configured sustain duration. -/
theorem runDetector_met_invariant (cfg : FlowStateConfig)
    (ticks : List TickInput) :
    ∀ (st : DetectorState) (s : ℚ),
      st.conditionMetSince = some s → s ≠ 0 →
      allTicksMet cfg st ticks = true →
      List.Pairwise (fun a b => a.now ≤ b.now) ticks →
      (st.isActive = true → ∀ t ∈ ticks, cfg.sustainedMs ≤ t.now - s) →
      ∀ i, i < ticks.length →
        (outAt (runDetector cfg st ticks) i).sustainedMs
          = (ticks.getD i defaultTick).now - s ∧
        (outAt (runDetector cfg st ticks) i).isActive
          = decide (cfg.sustainedMs ≤ (ticks.getD i defaultTick).now - s) := by
  induction ticks with
  | nil =>
    intro st s _ _ _ _ _ i hi
    simp at hi
  | cons t ts ih =>
    intro st s hsome hs0 hmet hpair hact i hi
    rw [allTicksMet, Bool.and_eq_true] at hmet
    obtain ⟨hm1, hm2⟩ := hmet
    have hupd := update_met_some cfg st t.bands t.motionLevel
      t.electrodeQuality t.now s hm1 hsome hs0
    rw [runDetector]
    rw [hupd] at hm2 ⊢
    have hhead : t.now ≤ t.now := le_refl _
    match i with
    | 0 =>
      refine ⟨by simp [outAt], ?_⟩
      simp only [outAt, List.getD_cons_zero]
      cases ha : st.isActive with
      | false => simp
      | true =>
        have := hact ha t (List.mem_cons_self t ts)
        simp [this]
    | j + 1 =>
      have hlt : j < ts.length := by
        simp only [List.length_cons] at hi
        omega
      have hres := ih ⟨some s, _, _,
          st.isActive || decide (cfg.sustainedMs ≤ t.now - s)⟩ s rfl hs0 hm2
        (List.Pairwise.of_cons hpair) ?_ j hlt
      · simpa [outAt, List.getD_cons_succ] using hres
      · intro hb u hu
        rcases (Bool.or_eq_true _ _).mp hb with hb1 | hb2
        · exact hact hb1 u (List.mem_cons_of_mem t hu)
        · have h1 : cfg.sustainedMs ≤ t.now - s := of_decide_eq_true hb2
          have h2 : t.now ≤ u.now := List.rel_of_pairwise_cons hpair hu
          linarith

/-- C1: over any run of FlowStateDetector.update ticks (nondecreasing,
positive wall-clock times) in which the gate is valid and the computed
metrics stay below their thresholds at every tick, the reported sustained
time at each tick is the elapsed time since the first tick, and the
returned active flag is false exactly while that elapsed time is below the
configured sustain duration and true from the first tick at which it
reaches the duration.  At any tick whose conditions fail, the returned
sustained time is 0, the returned active flag is false and the start
timestamp is cleared, and a later tick whose conditions resume records that
tick's time as the new start, so accumulation restarts from zero. -/
theorem flow_sustained_trigger_and_reset (cfg : FlowStateConfig) :
    (∀ (t : TickInput) (ts : List TickInput),
      allTicksMet cfg DetectorState.initial (t :: ts) = true →
      List.Pairwise (fun a b => a.now ≤ b.now) (t :: ts) →
      0 < t.now →
      ∀ i, i < (t :: ts).length →
        (outAt (runDetector cfg DetectorState.initial (t :: ts)) i).sustainedMs
          = ((t :: ts).getD i defaultTick).now - t.now ∧
        (outAt (runDetector cfg DetectorState.initial (t :: ts)) i).isActive
          = decide (cfg.sustainedMs ≤ ((t :: ts).getD i defaultTick).now - t.now)) ∧
    (∀ (st : DetectorState) (bands : BrainwaveBands) (mo eq now : ℚ),
      0 < cfg.sustainedMs →
      (computeMetrics cfg st bands mo eq).conditionsMet = false →
        (FlowStateDetector.update cfg st bands mo eq now).2.sustainedMs = 0 ∧
        (FlowStateDetector.update cfg st bands mo eq now).2.isActive = false ∧
        (FlowStateDetector.update cfg st bands mo eq now).1.conditionMetSince = none ∧
        (FlowStateDetector.update cfg st bands mo eq now).1.isActive = false) ∧
    (∀ (st : DetectorState) (bands : BrainwaveBands) (mo eq now : ℚ),
      st.conditionMetSince = none →
      (computeMetrics cfg st bands mo eq).conditionsMet = true →
        (FlowStateDetector.update cfg st bands mo eq now).1.conditionMetSince
          = some now ∧
        (FlowStateDetector.update cfg st bands mo eq now).2.sustainedMs = 0) := by
  refine ⟨?_, ?_, ?_⟩
  · intro t ts hmet hpair hpos i hi
    rw [allTicksMet, Bool.and_eq_true] at hmet
    obtain ⟨hm1, hm2⟩ := hmet
    have hupd := update_met_none cfg DetectorState.initial t.bands t.motionLevel
      t.electrodeQuality t.now hm1 rfl
    rw [runDetector]
    rw [hupd] at hm2 ⊢
    match i with
    | 0 =>
      constructor
      · simp [outAt, sub_self]
      · simp [outAt, DetectorState.initial, sub_self]
    | j + 1 =>
      have hlt : j < ts.length := by
        simp only [List.length_cons] at hi
        omega
      have hres := runDetector_met_invariant cfg ts
        ⟨some t.now, _, _,
          DetectorState.initial.isActive || decide (cfg.sustainedMs ≤ 0)⟩ t.now
        rfl hpos.ne' hm2 (List.Pairwise.of_cons hpair) ?_ j hlt
      · simpa [outAt, List.getD_cons_succ] using hres
      · intro hb u hu
        have hb2 : decide (cfg.sustainedMs ≤ (0 : ℚ)) = true := by
          simpa [DetectorState.initial] using hb
        have h1 : cfg.sustainedMs ≤ 0 := of_decide_eq_true hb2
        have h2 : t.now ≤ u.now := List.rel_of_pairwise_cons hpair hu
        linarith
  · intro st bands mo eq now hpos hfail
    have hd : decide (cfg.sustainedMs ≤ (0 : ℚ)) = false :=
      decide_eq_false (not_le.mpr hpos)
    rw [update_not_met cfg st bands mo eq now hfail]
    simp [hd]
  · intro st bands mo eq now hnone hmet
    rw [update_met_none cfg st bands mo eq now hmet hnone]
    exact ⟨rfl, rfl⟩

/-- Witness for C1: a concrete three-tick run (times 1000, 3000, 6001 ms,
constant bands alpha 0.4 / beta 0.2, full contact) meets the conditions at
every tick; the third tick is the first with elapsed time at least 5000 ms
and is exactly where the active flag turns true. -/
theorem flow_sustained_trigger_and_reset_witness :
    (outAt (runDetector DEFAULT_CONFIG DetectorState.initial
        [⟨⟨0, 0, 0.4, 0.2, 0⟩, 0, 1, 1000⟩,
         ⟨⟨0, 0, 0.4, 0.2, 0⟩, 0, 1, 3000⟩,
         ⟨⟨0, 0, 0.4, 0.2, 0⟩, 0, 1, 6001⟩]) 1).sustainedMs = 2000 ∧
    (outAt (runDetector DEFAULT_CONFIG DetectorState.initial
        [⟨⟨0, 0, 0.4, 0.2, 0⟩, 0, 1, 1000⟩,
         ⟨⟨0, 0, 0.4, 0.2, 0⟩, 0, 1, 3000⟩,
         ⟨⟨0, 0, 0.4, 0.2, 0⟩, 0, 1, 6001⟩]) 1).isActive = false ∧
    (outAt (runDetector DEFAULT_CONFIG DetectorState.initial
        [⟨⟨0, 0, 0.4, 0.2, 0⟩, 0, 1, 1000⟩,
         ⟨⟨0, 0, 0.4, 0.2, 0⟩, 0, 1, 3000⟩,
         ⟨⟨0, 0, 0.4, 0.2, 0⟩, 0, 1, 6001⟩]) 2).sustainedMs = 5001 ∧
    (outAt (runDetector DEFAULT_CONFIG DetectorState.initial
        [⟨⟨0, 0, 0.4, 0.2, 0⟩, 0, 1, 1000⟩,
         ⟨⟨0, 0, 0.4, 0.2, 0⟩, 0, 1, 3000⟩,
         ⟨⟨0, 0, 0.4, 0.2, 0⟩, 0, 1, 6001⟩]) 2).isActive = true := by
  have h1 := (flow_sustained_trigger_and_reset DEFAULT_CONFIG).1
    ⟨⟨0, 0, 0.4, 0.2, 0⟩, 0, 1, 1000⟩
    [⟨⟨0, 0, 0.4, 0.2, 0⟩, 0, 1, 3000⟩, ⟨⟨0, 0, 0.4, 0.2, 0⟩, 0, 1, 6001⟩]
    (by with_unfolding_all decide) (by with_unfolding_all decide)
    (by norm_num) 1 (by norm_num)
  have h2 := (flow_sustained_trigger_and_reset DEFAULT_CONFIG).1
    ⟨⟨0, 0, 0.4, 0.2, 0⟩, 0, 1, 1000⟩
    [⟨⟨0, 0, 0.4, 0.2, 0⟩, 0, 1, 3000⟩, ⟨⟨0, 0, 0.4, 0.2, 0⟩, 0, 1, 6001⟩]
    (by with_unfolding_all decide) (by with_unfolding_all decide)
    (by norm_num) 2 (by norm_num)
  obtain ⟨h1a, h1b⟩ := h1
  obtain ⟨h2a, h2b⟩ := h2
  refine ⟨?_, ?_, ?_, ?_⟩
  · rw [h1a]; norm_num [List.getD]
  · rw [h1b]
    rw [decide_eq_false]
    norm_num [List.getD, DEFAULT_CONFIG]
  · rw [h2a]; norm_num [List.getD]
  · rw [h2b]
    rw [decide_eq_true]
    norm_num [List.getD, DEFAULT_CONFIG]

/-- Read a Float32Array cell: out-of-range reads give the default value. -/
def listGet (l : List ℚ) (i : ℕ) : ℚ := l.getD i 0

/-- Destructuring swap of two cells, as in the bit-reversal permutation. -/
def listSwap (l : List ℚ) (i j : ℕ) : List ℚ :=
  let vi := listGet l i
  let vj := listGet l j
  (l.set i vj).set j vi

/-- FFT_SIZE of fft-processor.ts. -/
def FFT_SIZE : ℕ := 256

/-- SAMPLE_RATE of fft-processor.ts (Muse samples at 256 Hz). -/
def SAMPLE_RATE : ℚ := 256

/-- The reusable scratch arrays (this.real / this.imag) of an FFTProcessor
instance. -/
structure FFTScratch where
  real : List ℚ
  imag : List ℚ
deriving Repr, DecidableEq

/-- Constructor-precomputed tables of an FFTProcessor: its size, twiddle
tables and Hann window.  The tables hold the values Math.cos/Math.sin
produce; the claims settled here hold for arbitrary table contents. -/
structure FFTTables where
  size : ℕ
  cosTable : List ℚ
  sinTable : List ℚ
  window : List ℚ
deriving Repr, DecidableEq

/-- Inner while loop of the bit-reversal counter increment: while k <= j,
subtract k from j and halve k; on exit add the final k.  The first argument
is structural fuel; k + 1 always suffices since k at least halves each
iteration. -/
def bitrevNextAux : ℕ → ℕ → ℕ → ℕ
  | 0, j, k => j + k
  | fuel + 1, j, k =>
    if k = 0 then j
    else if k ≤ j then bitrevNextAux fuel (j - k) (k / 2)
    else j + k

/-- One increment of the bit-reversed counter j (fft-processor.ts compute,
bit-reversal permutation), with k initialized to n >> 1. -/
def bitrevNext (j k : ℕ) : ℕ := bitrevNextAux (k + 1) j k

/-- Bit-reversal permutation loop of FFTProcessor.compute. -/
def bitReverse (n : ℕ) (re im : List ℚ) : List ℚ × List ℚ :=
  ((List.range (n - 1)).foldl
    (fun (st : (List ℚ × List ℚ) × ℕ) i =>
      let j := st.2
      let p := if i < j then (listSwap st.1.1 i j, listSwap st.1.2 i j) else st.1
      (p, bitrevNext j (n / 2)))
    ((re, im), 0)).1

/-- One butterfly of the Cooley-Tukey inner loop (fft-processor.ts compute):
the in-place updates of real/imag at positions i+jj and i+jj+halfSize. -/
def butterfly (cosT sinT : List ℚ) (halfSize i jj kk : ℕ)
    (p : List ℚ × List ℚ) : List ℚ × List ℚ :=
  let tReal := listGet p.1 (i + jj + halfSize) * listGet cosT kk
    + listGet p.2 (i + jj + halfSize) * listGet sinT kk
  let tImag := listGet p.2 (i + jj + halfSize) * listGet cosT kk
    - listGet p.1 (i + jj + halfSize) * listGet sinT kk
  let re1 := p.1.set (i + jj + halfSize) (listGet p.1 (i + jj) - tReal)
  let im1 := p.2.set (i + jj + halfSize) (listGet p.2 (i + jj) - tImag)
  let re2 := re1.set (i + jj) (listGet re1 (i + jj) + tReal)
  let im2 := im1.set (i + jj) (listGet im1 (i + jj) + tImag)
  (re2, im2)

/-- The jj loop of one butterfly group, kk advancing by step per iteration. -/
def butterflyInner (cosT sinT : List ℚ) (halfSize step i : ℕ)
    (p : List ℚ × List ℚ) : List ℚ × List ℚ :=
  (List.range halfSize).foldl
    (fun p jj => butterfly cosT sinT halfSize i jj (jj * step) p) p

/-- The i loop of one stage: group starts 0, size, 2*size, ... below n. -/
def butterflyStage (cosT sinT : List ℚ) (n size : ℕ)
    (p : List ℚ × List ℚ) : List ℚ × List ℚ :=
  ((List.range ((n + size - 1) / size)).map (· * size)).foldl
    (fun p i => butterflyInner cosT sinT (size / 2) (n / size) i p) p

/-- The stage loop: size doubles from 2 while it does not exceed n.  For the
power-of-two sizes the processor is used with, step n/size is exact. -/
def fftStages (cosT sinT : List ℚ) (n : ℕ)
    (p : List ℚ × List ℚ) : List ℚ × List ℚ :=
  ((List.range (Nat.log2 n)).map fun t => 2 ^ (t + 1)).foldl
    (fun p size => butterflyStage cosT sinT n size p) p

/-- Windowing pass at the top of FFTProcessor.compute: real[i] gets the
windowed sample (missing samples read as 0) and imag[i] gets 0, for every
i below the transform size. -/
def initPass (n : ℕ) (window samples : List ℚ) (re im : List ℚ) :
    List ℚ × List ℚ :=
  (List.range n).foldl
    (fun (p : List ℚ × List ℚ) i =>
      (p.1.set i (samples.getD i 0 * listGet window i), p.2.set i 0))
    (re, im)

/-- FFTProcessor.compute: windowing, bit reversal, butterfly stages, then
the magnitude spectrum over the first size/2 bins.  The scratch arrays are
threaded explicitly (the source mutates this.real / this.imag in place);
the square root is the parameter sq. -/
def FFTProcessor.compute (tb : FFTTables) (sq : ℚ → ℚ) (st : FFTScratch)
    (samples : List ℚ) : FFTScratch × List ℚ :=
  let p1 := initPass tb.size tb.window samples st.real st.imag
  let p2 := bitReverse tb.size p1.1 p1.2
  let p3 := fftStages tb.cosTable tb.sinTable tb.size p2
  let magnitudes := (List.range (tb.size / 2)).map
    fun i => sq (listGet p3.1 i * listGet p3.1 i + listGet p3.2 i * listGet p3.2 i)
  (⟨p3.1, p3.2⟩, magnitudes)

/-- FFTProcessor.getBandPower: average squared magnitude over the bin loop
from max(1, floor(lowFreq/resolution)) up to ceil(highFreq/resolution),
stopping at the end of the spectrum; 0 when the loop body never runs. -/
def FFTProcessor.getBandPower (size : ℕ) (magnitudes : List ℚ)
    (lowFreq highFreq : ℚ) : ℚ :=
  let freqResolution : ℚ := SAMPLE_RATE / size
  let lowBin : ℤ := max 1 ⌊lowFreq / freqResolution⌋
  let highBin : ℤ := ⌈highFreq / freqResolution⌉
  let idxs := (List.range magnitudes.length).filter
    fun (i : ℕ) => decide (lowBin ≤ (i : ℤ)) && decide ((i : ℤ) ≤ highBin)
  let s := (idxs.map fun i => listGet magnitudes i * listGet magnitudes i).sum
  if idxs.length > 0 then s / idxs.length else 0

/-- Single-pole high-pass recurrence of FFTProcessor.highPassFilter, after
the first output cell is set to 0.  The filter coefficient is the parameter
a (in the source, rc/(rc+dt) for the given cutoff). -/
def hpfAux (a : ℚ) : ℚ → ℚ → List ℚ → List ℚ
  | _, _, [] => []
  | prevF, prevS, s :: rest =>
    let f := a * (prevF + s - prevS)
    f :: hpfAux a f s rest

/-- FFTProcessor.highPassFilter with coefficient a: first output 0, then
the recurrence filtered[i] = a * (filtered[i-1] + samples[i] - samples[i-1]).
On an empty input the source still writes index 0, producing [0]. -/
def FFTProcessor.highPassFilter (a : ℚ) (samples : List ℚ) : List ℚ :=
  match samples with
  | [] => [0]
  | s0 :: rest => 0 :: hpfAux a 0 s0 rest

/-- Band power as the specification words it: average squared magnitude over
the bins whose center frequency i * resolution lies in the half-open
interval from lowFreq (inclusive) to highFreq (exclusive), never bin 0,
and 0 when no bin qualifies. -/
def bandPowerSpecHalfOpen (size : ℕ) (magnitudes : List ℚ)
    (lowFreq highFreq : ℚ) : ℚ :=
  let freqResolution : ℚ := SAMPLE_RATE / size
  let idxs := (List.range magnitudes.length).filter
    fun (i : ℕ) => decide (1 ≤ i) && decide (lowFreq ≤ (i : ℚ) * freqResolution)
      && decide ((i : ℚ) * freqResolution < highFreq)
  let s := (idxs.map fun i => listGet magnitudes i * listGet magnitudes i).sum
  if idxs.length > 0 then s / idxs.length else 0

/-- Band power over the bins whose center frequency lies in the closed
interval from lowFreq to highFreq (bin at highFreq included), never bin 0,
and 0 when no bin qualifies. -/
def bandPowerSpecClosed (size : ℕ) (magnitudes : List ℚ)
    (lowFreq highFreq : ℚ) : ℚ :=
  let freqResolution : ℚ := SAMPLE_RATE / size
  let idxs := (List.range magnitudes.length).filter
    fun (i : ℕ) => decide (1 ≤ i) && decide (lowFreq ≤ (i : ℚ) * freqResolution)
      && decide ((i : ℚ) * freqResolution ≤ highFreq)
  let s := (idxs.map fun i => listGet magnitudes i * listGet magnitudes i).sum
  if idxs.length > 0 then s / idxs.length else 0

/-- Counterexample to C4 as stated: at size 256 (resolution 1 Hz) with a
spectrum whose only nonzero magnitude sits in bin 4, the delta-band call
getBandPower(1, 4) includes bin 4 (center exactly at highFreq) and returns
1/4, while the claimed half-open selection over centers in the interval
from 1 inclusive to 4 exclusive returns 0. -/
theorem getBandPower_not_halfopen :
    FFTProcessor.getBandPower 256 [0, 0, 0, 0, 1] 1 4 = 1 / 4 ∧
    bandPowerSpecHalfOpen 256 [0, 0, 0, 0, 1] 1 4 = 0 ∧
    (1 / 4 : ℚ) ≠ 0 := by
  refine ⟨by with_unfolding_all decide, by with_unfolding_all decide, by norm_num⟩

/-- C4 (amended): for every magnitude spectrum, when the band edges are
integer multiples of the (positive) frequency resolution — as all canonical
band edges are at the default 1 Hz resolution — getBandPower returns the
average of squared magnitudes over exactly the bins whose center frequency
falls in the closed interval from lowFreq to highFreq: the bin centered at
highFreq is included (the interval is not half-open), bin 0 (DC) is always
excluded, and the result is 0 when no bin qualifies. -/
theorem getBandPower_closed_interval (size : ℕ) (magnitudes : List ℚ)
    (lowFreq highFreq : ℚ)
    (hres : 0 < SAMPLE_RATE / (size : ℚ))
    (ha : ∃ a : ℤ, lowFreq = (a : ℚ) * (SAMPLE_RATE / size))
    (hb : ∃ b : ℤ, highFreq = (b : ℚ) * (SAMPLE_RATE / size)) :
    FFTProcessor.getBandPower size magnitudes lowFreq highFreq
      = bandPowerSpecClosed size magnitudes lowFreq highFreq := by
  obtain ⟨a, ha⟩ := ha
  obtain ⟨b, hb⟩ := hb
  have hfl : ⌊lowFreq / (SAMPLE_RATE / (size : ℚ))⌋ = a := by
    rw [ha, mul_div_assoc, div_self (ne_of_gt hres), mul_one, Int.floor_intCast]
  have hce : ⌈highFreq / (SAMPLE_RATE / (size : ℚ))⌉ = b := by
    rw [hb, mul_div_assoc, div_self (ne_of_gt hres), mul_one, Int.ceil_intCast]
  have hfil : ∀ i ∈ List.range magnitudes.length,
      (decide ((max 1 ⌊lowFreq / (SAMPLE_RATE / (size : ℚ))⌋) ≤ (i : ℤ))
        && decide ((i : ℤ) ≤ ⌈highFreq / (SAMPLE_RATE / (size : ℚ))⌉))
      = (decide (1 ≤ i) && decide (lowFreq ≤ (i : ℚ) * (SAMPLE_RATE / size))
        && decide ((i : ℚ) * (SAMPLE_RATE / size) ≤ highFreq)) := by
    intro i _
    rw [hfl, hce, ← Bool.decide_and, ← Bool.decide_and, ← Bool.decide_and]
    apply decide_eq_decide.mpr
    constructor
    · rintro ⟨h1, h2⟩
      rw [max_le_iff] at h1
      refine ⟨⟨by exact_mod_cast h1.1, ?_⟩, ?_⟩
      · rw [ha]
        have : (a : ℚ) ≤ (i : ℚ) := by exact_mod_cast h1.2
        exact mul_le_mul_of_nonneg_right this (le_of_lt hres)
      · rw [hb]
        have : (i : ℚ) ≤ (b : ℚ) := by exact_mod_cast h2
        exact mul_le_mul_of_nonneg_right this (le_of_lt hres)
    · rintro ⟨⟨h1, h2⟩, h3⟩
      rw [ha] at h2
      rw [hb] at h3
      have h2' : (a : ℚ) ≤ (i : ℚ) := (mul_le_mul_right hres).mp h2
      have h3' : (i : ℚ) ≤ (b : ℚ) := (mul_le_mul_right hres).mp h3
      refine ⟨max_le_iff.mpr ⟨by exact_mod_cast h1, by exact_mod_cast h2'⟩, ?_⟩
      exact_mod_cast h3'
  simp only [FFTProcessor.getBandPower, bandPowerSpecClosed]
  rw [List.filter_congr hfil]

/-- Witness for the amended C4: the alpha band call at the default size. -/
theorem getBandPower_closed_interval_witness :
    FFTProcessor.getBandPower 256 [0, 1, 2] 8 13
      = bandPowerSpecClosed 256 [0, 1, 2] 8 13 :=
  getBandPower_closed_interval 256 [0, 1, 2] 8 13
    (by norm_num [SAMPLE_RATE])
    ⟨8, by norm_num [SAMPLE_RATE]⟩
    ⟨13, by norm_num [SAMPLE_RATE]⟩

/-- Reading a cell after a bounded write: the new value at the written
index, the old value elsewhere (out-of-range writes change nothing). -/
theorem listGet_set (l : List ℚ) (i j : ℕ) (v : ℚ) :
    listGet (l.set i v) j
      = if i = j ∧ i < l.length then v else listGet l j := by
  induction l generalizing i j with
  | nil => simp [listGet]
  | cons x xs ih =>
    match i, j with
    | 0, 0 => simp [listGet]
    | 0, j + 1 => simp [listGet]
    | i + 1, 0 => simp [listGet]
    | i + 1, j + 1 =>
      rw [List.set_cons_succ,
        show listGet (x :: xs.set i v) (j + 1) = listGet (xs.set i v) j from by
          simp [listGet],
        show listGet (x :: xs) (j + 1) = listGet xs j from by simp [listGet],
        ih i j]
      simp only [List.length_cons]
      by_cases hij : i = j
      · subst hij
        split_ifs <;> first | rfl | omega
      · split_ifs <;> first | rfl | omega

/-- Reading past the end of a list gives the default. -/
theorem listGet_past_length (l : List ℚ) (j : ℕ) (h : l.length ≤ j) :
    listGet l j = 0 := by
  simp [listGet, List.getD, List.getElem?_eq_none h]

/-- Two lists of equal length agreeing on every read are equal. -/
theorem listGet_ext (l1 l2 : List ℚ) (hlen : l1.length = l2.length)
    (h : ∀ i, listGet l1 i = listGet l2 i) : l1 = l2 := by
  induction l1 generalizing l2 with
  | nil =>
    cases l2 with
    | nil => rfl
    | cons y ys => simp at hlen
  | cons x xs ih =>
    cases l2 with
    | nil => simp at hlen
    | cons y ys =>
      have hx : x = y := h 0
      have hxs : xs = ys := by
        refine ih ys (by simpa using hlen) fun i => ?_
        simpa [listGet] using h (i + 1)
      rw [hx, hxs]

/-- Unfolding one step of the windowing pass. -/
theorem initPass_succ (n : ℕ) (w s re im : List ℚ) :
    initPass (n + 1) w s re im
      = ((initPass n w s re im).1.set n (s.getD n 0 * listGet w n),
         (initPass n w s re im).2.set n 0) := by
  simp [initPass, List.range_succ]

/-- The windowing pass preserves the scratch lengths. -/
theorem initPass_length (n : ℕ) (w s re im : List ℚ) :
    (initPass n w s re im).1.length = re.length ∧
    (initPass n w s re im).2.length = im.length := by
  induction n with
  | zero => simp [initPass]
  | succ n ih =>
    rw [initPass_succ]
    simp [ih.1, ih.2]

/-- Cell-level description of the windowing pass: every cell below both the
transform size and the array length holds the windowed sample; the other
cells are untouched. -/
theorem initPass_get (n : ℕ) (w s re im : List ℚ) :
    (∀ j, listGet (initPass n w s re im).1 j
      = if j < n ∧ j < re.length then s.getD j 0 * listGet w j
        else listGet re j) ∧
    (∀ j, listGet (initPass n w s re im).2 j
      = if j < n ∧ j < im.length then 0 else listGet im j) := by
  induction n with
  | zero => simp [initPass]
  | succ n ih =>
    rw [initPass_succ]
    constructor
    · intro j
      rw [listGet_set, (initPass_length n w s re im).1, ih.1 j]
      by_cases hj : n = j
      · subst hj
        split_ifs <;> first | rfl | omega
      · split_ifs <;> first | rfl | omega
    · intro j
      rw [listGet_set, (initPass_length n w s re im).2, ih.2 j]
      by_cases hj : n = j
      · subst hj
        split_ifs <;> first | rfl | omega
      · split_ifs <;> first | rfl | omega

/-- The windowing pass fully overwrites scratch arrays of exactly the
transform size, so its result does not depend on their prior contents. -/
theorem initPass_scratch_irrelevant (n : ℕ) (w s : List ℚ)
    (re1 im1 re2 im2 : List ℚ)
    (h1 : re1.length = n) (h2 : im1.length = n)
    (h3 : re2.length = n) (h4 : im2.length = n) :
    initPass n w s re1 im1 = initPass n w s re2 im2 := by
  have hre : (initPass n w s re1 im1).1 = (initPass n w s re2 im2).1 := by
    refine listGet_ext _ _ ?_ fun j => ?_
    · rw [(initPass_length n w s re1 im1).1, (initPass_length n w s re2 im2).1,
        h1, h3]
    · rw [(initPass_get n w s re1 im1).1 j, (initPass_get n w s re2 im2).1 j,
        h1, h3]
      by_cases hj : j < n
      · simp [hj]
      · simp only [hj, false_and, if_false]
        rw [listGet_past_length re1 j (by omega),
          listGet_past_length re2 j (by omega)]
  have him : (initPass n w s re1 im1).2 = (initPass n w s re2 im2).2 := by
    refine listGet_ext _ _ ?_ fun j => ?_
    · rw [(initPass_length n w s re1 im1).2, (initPass_length n w s re2 im2).2,
        h2, h4]
    · rw [(initPass_get n w s re1 im1).2 j, (initPass_get n w s re2 im2).2 j,
        h2, h4]
      by_cases hj : j < n
      · simp [hj]
      · simp only [hj, false_and, if_false]
        rw [listGet_past_length im1 j (by omega),
          listGet_past_length im2 j (by omega)]
  exact Prod.ext hre him

/-- Folding a step that preserves a property preserves it over any list. -/
theorem foldl_preserve {α β : Type} (P : β → Prop) (f : β → α → β)
    (hf : ∀ b a, P b → P (f b a)) :
    ∀ (l : List α) (b : β), P b → P (l.foldl f b) := by
  intro l
  induction l with
  | nil => intro b hb; exact hb
  | cons x xs ih =>
    intro b hb
    exact ih _ (hf b x hb)

/-- Swapping two cells preserves the length. -/
theorem listSwap_length (l : List ℚ) (i j : ℕ) :
    (listSwap l i j).length = l.length := by
  simp [listSwap]

/-- The bit-reversal permutation preserves the scratch lengths. -/
theorem bitReverse_length (n : ℕ) (re im : List ℚ) :
    (bitReverse n re im).1.length = re.length ∧
    (bitReverse n re im).2.length = im.length := by
  unfold bitReverse
  refine foldl_preserve
    (fun (st : (List ℚ × List ℚ) × ℕ) =>
      st.1.1.length = re.length ∧ st.1.2.length = im.length)
    _ ?_ (List.range (n - 1)) ((re, im), 0) ⟨rfl, rfl⟩
  intro b a hb
  dsimp only
  by_cases h : a < b.2 <;> simp [h, listSwap_length, hb.1, hb.2]

/-- One butterfly preserves the scratch lengths. -/
theorem butterfly_length (cosT sinT : List ℚ) (halfSize i jj kk : ℕ)
    (p : List ℚ × List ℚ) :
    (butterfly cosT sinT halfSize i jj kk p).1.length = p.1.length ∧
    (butterfly cosT sinT halfSize i jj kk p).2.length = p.2.length := by
  simp [butterfly]

/-- A butterfly group preserves the scratch lengths. -/
theorem butterflyInner_length (cosT sinT : List ℚ) (halfSize step i : ℕ)
    (p : List ℚ × List ℚ) :
    (butterflyInner cosT sinT halfSize step i p).1.length = p.1.length ∧
    (butterflyInner cosT sinT halfSize step i p).2.length = p.2.length := by
  unfold butterflyInner
  refine foldl_preserve
    (fun (q : List ℚ × List ℚ) =>
      q.1.length = p.1.length ∧ q.2.length = p.2.length)
    _ ?_ (List.range halfSize) p ⟨rfl, rfl⟩
  intro b a hb
  exact ⟨(butterfly_length _ _ _ _ _ _ b).1.trans hb.1,
    (butterfly_length _ _ _ _ _ _ b).2.trans hb.2⟩

/-- One stage preserves the scratch lengths. -/
theorem butterflyStage_length (cosT sinT : List ℚ) (n size : ℕ)
    (p : List ℚ × List ℚ) :
    (butterflyStage cosT sinT n size p).1.length = p.1.length ∧
    (butterflyStage cosT sinT n size p).2.length = p.2.length := by
  unfold butterflyStage
  refine foldl_preserve
    (fun (q : List ℚ × List ℚ) =>
      q.1.length = p.1.length ∧ q.2.length = p.2.length)
    _ ?_ _ p ⟨rfl, rfl⟩
  intro b a hb
  exact ⟨(butterflyInner_length _ _ _ _ _ b).1.trans hb.1,
    (butterflyInner_length _ _ _ _ _ b).2.trans hb.2⟩

/-- The stage loop preserves the scratch lengths. -/
theorem fftStages_length (cosT sinT : List ℚ) (n : ℕ) (p : List ℚ × List ℚ) :
    (fftStages cosT sinT n p).1.length = p.1.length ∧
    (fftStages cosT sinT n p).2.length = p.2.length := by
  unfold fftStages
  refine foldl_preserve
    (fun (q : List ℚ × List ℚ) =>
      q.1.length = p.1.length ∧ q.2.length = p.2.length)
    _ ?_ _ p ⟨rfl, rfl⟩
  intro b a hb
  exact ⟨(butterflyStage_length _ _ _ _ b).1.trans hb.1,
    (butterflyStage_length _ _ _ _ b).2.trans hb.2⟩

/-- The compute call preserves the scratch lengths. -/
theorem compute_scratch_length (tb : FFTTables) (sq : ℚ → ℚ)
    (st : FFTScratch) (samples : List ℚ) :
    (FFTProcessor.compute tb sq st samples).1.real.length = st.real.length ∧
    (FFTProcessor.compute tb sq st samples).1.imag.length = st.imag.length := by
  unfold FFTProcessor.compute
  dsimp only
  constructor
  · rw [(fftStages_length _ _ _ _).1, (bitReverse_length _ _ _).1,
      (initPass_length _ _ _ _ _).1]
  · rw [(fftStages_length _ _ _ _).2, (bitReverse_length _ _ _).2,
      (initPass_length _ _ _ _ _).2]

/-- C9: FFTProcessor.compute is a pure, repeatable function of its input
window and the precomputed tables despite reusing the internal scratch
arrays: the magnitude spectrum does not depend on the scratch contents left
by earlier calls, and in particular computing twice over the identical
window (no intervening ingestion) yields identical spectra. -/
theorem compute_deterministic (tb : FFTTables) (sq : ℚ → ℚ)
    (s1 s2 : FFTScratch) (samples : List ℚ)
    (h1 : s1.real.length = tb.size) (h2 : s1.imag.length = tb.size)
    (h3 : s2.real.length = tb.size) (h4 : s2.imag.length = tb.size) :
    (FFTProcessor.compute tb sq s1 samples).2
      = (FFTProcessor.compute tb sq s2 samples).2 ∧
    (FFTProcessor.compute tb sq (FFTProcessor.compute tb sq s1 samples).1
        samples).2
      = (FFTProcessor.compute tb sq s1 samples).2 := by
  have key : ∀ (t1 t2 : FFTScratch),
      t1.real.length = tb.size → t1.imag.length = tb.size →
      t2.real.length = tb.size → t2.imag.length = tb.size →
      (FFTProcessor.compute tb sq t1 samples).2
        = (FFTProcessor.compute tb sq t2 samples).2 := by
    intro t1 t2 k1 k2 k3 k4
    unfold FFTProcessor.compute
    dsimp only
    rw [initPass_scratch_irrelevant tb.size tb.window samples
      t1.real t1.imag t2.real t2.imag k1 k2 k3 k4]
  refine ⟨key s1 s2 h1 h2 h3 h4, key _ s1 ?_ ?_ h1 h2⟩
  · rw [(compute_scratch_length tb sq s1 samples).1, h1]
  · rw [(compute_scratch_length tb sq s1 samples).2, h2]

/-- Witness for C9: two different dirty scratch states at size 2 produce
the same spectrum for the same sample window. -/
theorem compute_deterministic_witness :
    (FFTProcessor.compute ⟨2, [1], [0], [1, 1]⟩ id ⟨[3, 4], [5, 6]⟩ [1, 2]).2
      = (FFTProcessor.compute ⟨2, [1], [0], [1, 1]⟩ id ⟨[0, 0], [0, 0]⟩
          [1, 2]).2 :=
  (compute_deterministic ⟨2, [1], [0], [1, 1]⟩ id ⟨[3, 4], [5, 6]⟩
    ⟨[0, 0], [0, 0]⟩ [1, 2] rfl rfl rfl rfl).1

/-- The five canonical band names of the handler state. -/
inductive Band
  | delta
  | theta
  | alpha
  | beta
  | gamma
deriving DecidableEq, Repr

/-- Read one named band. -/
def BrainwaveBands.getBand : BrainwaveBands → Band → ℚ
  | b, .delta => b.delta
  | b, .theta => b.theta
  | b, .alpha => b.alpha
  | b, .beta => b.beta
  | b, .gamma => b.gamma

/-- Write one named band. -/
def BrainwaveBands.setBand : BrainwaveBands → Band → ℚ → BrainwaveBands
  | b, .delta, v => { b with delta := v }
  | b, .theta, v => { b with theta := v }
  | b, .alpha, v => { b with alpha := v }
  | b, .beta, v => { b with beta := v }
  | b, .gamma, v => { b with gamma := v }

/-- The all-zero band record (initial _bands and _bandsSmooth of
MuseHandler). -/
def zeroBands : BrainwaveBands := ⟨0, 0, 0, 0, 0⟩

/-- The per-band visualization history (_history of MuseHandler). -/
structure BandHistory where
  delta : List ℚ
  theta : List ℚ
  alpha : List ℚ
  beta : List ℚ
  gamma : List ℚ
deriving Repr, DecidableEq

/-- Read one band's history. -/
def BandHistory.getBand : BandHistory → Band → List ℚ
  | h, .delta => h.delta
  | h, .theta => h.theta
  | h, .alpha => h.alpha
  | h, .beta => h.beta
  | h, .gamma => h.gamma

/-- Write one band's history. -/
def BandHistory.setBand : BandHistory → Band → List ℚ → BandHistory
  | h, .delta, l => { h with delta := l }
  | h, .theta, l => { h with theta := l }
  | h, .alpha, l => { h with alpha := l }
  | h, .beta, l => { h with beta := l }
  | h, .gamma, l => { h with gamma := l }

/-- smoothingFactor field of MuseHandler. -/
def MuseHandler.smoothingFactor : ℚ := 0.85

/-- historyLength field of MuseHandler (visualization history). -/
def MuseHandler.historyLength : ℕ := 256

/-- The band-related mutable state of a MuseHandler instance: raw bands,
smoothed bands and per-band history.  The other fields (connection state,
accelerometer, derived display indices, callbacks) are outside every claim
settled here. -/
structure MuseBandState where
  bands : BrainwaveBands
  bandsSmooth : BrainwaveBands
  history : BandHistory
deriving Repr, DecidableEq

/-- Band state as initialized by the MuseHandler field initializers. -/
def MuseBandState.initial : MuseBandState :=
  ⟨zeroBands, zeroBands, ⟨[], [], [], [], []⟩⟩

/-- History push followed by the single conditional shift of updateBand. -/
def pushTrim (l : List ℚ) (v : ℚ) : List ℚ :=
  let l2 := l ++ [v]
  if l2.length > MuseHandler.historyLength then l2.tail else l2

/-- MuseHandler.updateBand: clamp the incoming value to the unit interval,
store it as the raw band, fold it into the EMA-smoothed band and append it
to the bounded history.  The trailing updateDerivedStates/emitDataUpdate
calls touch only fields outside this model. -/
def MuseHandler.updateBand (st : MuseBandState) (band : Band) (value : ℚ) :
    MuseBandState :=
  let v := max 0 (min 1 value)
  { bands := st.bands.setBand band v
    bandsSmooth := st.bandsSmooth.setBand band
      (st.bandsSmooth.getBand band * MuseHandler.smoothingFactor
        + v * (1 - MuseHandler.smoothingFactor))
    history := st.history.setBand band (pushTrim (st.history.getBand band) v) }

/-- Per-channel processing step of MuseHandler.processBluetoothFFT: high-pass
filter the buffer, run the FFT, and read the five canonical band powers
(delta 1-4, theta 4-8, alpha 8-13, beta 13-30, gamma 30-44 Hz). -/
def MuseHandler.channelBandPowers (tb : FFTTables) (sq : ℚ → ℚ) (hpfA : ℚ)
    (scratch : FFTScratch) (buffer : List ℚ) : FFTScratch × BrainwaveBands :=
  let filtered := FFTProcessor.highPassFilter hpfA buffer
  let r := FFTProcessor.compute tb sq scratch filtered
  (r.1,
   { delta := FFTProcessor.getBandPower tb.size r.2 1 4
     theta := FFTProcessor.getBandPower tb.size r.2 4 8
     alpha := FFTProcessor.getBandPower tb.size r.2 8 13
     beta := FFTProcessor.getBandPower tb.size r.2 13 30
     gamma := FFTProcessor.getBandPower tb.size r.2 30 44 })

/-- Channel loop of processBluetoothFFT: channels whose buffer holds fewer
than the transform size samples are skipped, the others contribute their
band powers to the running sums and the valid-channel count.  In the source
both the skip bound and the processor size are the constant FFT_SIZE. -/
def MuseHandler.accumulatePowers (tb : FFTTables) (sq : ℚ → ℚ) (hpfA : ℚ)
    (scratch : FFTScratch) (buffers : List (List ℚ)) :
    FFTScratch × BrainwaveBands × ℕ :=
  buffers.foldl
    (fun (acc : FFTScratch × BrainwaveBands × ℕ) buf =>
      if buf.length < tb.size then acc
      else
        let r := MuseHandler.channelBandPowers tb sq hpfA acc.1 buf
        (r.1,
         ⟨acc.2.1.delta + r.2.delta, acc.2.1.theta + r.2.theta,
          acc.2.1.alpha + r.2.alpha, acc.2.1.beta + r.2.beta,
          acc.2.1.gamma + r.2.gamma⟩,
         acc.2.2 + 1))
    (scratch, zeroBands, 0)

/-- Channel averaging followed by the fixed 1/f slope-correction gains
(delta x1, theta x1.5, alpha x2, beta x3, gamma x4). -/
def MuseHandler.correctedPowers (sums : BrainwaveBands) (validChannels : ℕ) :
    BrainwaveBands :=
  ⟨sums.delta / validChannels,
   sums.theta / validChannels * 1.5,
   sums.alpha / validChannels * 2.0,
   sums.beta / validChannels * 3.0,
   sums.gamma / validChannels * 4.0⟩

/-- Total corrected power, summed in source order. -/
def bandsTotal (b : BrainwaveBands) : ℚ :=
  b.delta + b.theta + b.alpha + b.beta + b.gamma

/-- MuseHandler.processBluetoothFFT: accumulate per-channel band powers,
return unchanged band state when no channel is valid, average and
slope-correct, and update the five bands with relative powers only when the
corrected total power is positive. -/
def MuseHandler.processBluetoothFFT (tb : FFTTables) (sq : ℚ → ℚ) (hpfA : ℚ)
    (scratch : FFTScratch) (st : MuseBandState) (buffers : List (List ℚ)) :
    MuseBandState × FFTScratch :=
  let acc := MuseHandler.accumulatePowers tb sq hpfA scratch buffers
  if acc.2.2 = 0 then (st, acc.1)
  else
    let corrected := MuseHandler.correctedPowers acc.2.1 acc.2.2
    let totalPower := bandsTotal corrected
    if totalPower > 0 then
      let st1 := MuseHandler.updateBand st .delta (corrected.delta / totalPower)
      let st2 := MuseHandler.updateBand st1 .theta (corrected.theta / totalPower)
      let st3 := MuseHandler.updateBand st2 .alpha (corrected.alpha / totalPower)
      let st4 := MuseHandler.updateBand st3 .beta (corrected.beta / totalPower)
      let st5 := MuseHandler.updateBand st4 .gamma (corrected.gamma / totalPower)
      (st5, acc.1)
    else (st, acc.1)

/-- A JavaScript number argument of an OSC event: either finite (modelled
as a rational) or NaN/non-finite. -/
inductive JSNum
  | nan
  | num (q : ℚ)
deriving DecidableEq, Repr

/-- The isNaN/isFinite filter of parseValue. -/
def JSNum.finite? : JSNum → Option ℚ
  | .nan => none
  | .num q => some q

/-- MuseHandler.parseValue on an argument array (handleOSCMessage always
passes an array): average of the finite entries, 0 when none remain. -/
def MuseHandler.parseValue (args : List JSNum) : ℚ :=
  let valid := args.filterMap JSNum.finite?
  if valid.length = 0 then 0
  else valid.sum / valid.length

/-- OSC address of each relative band-power event. -/
def bandAddress : Band → String
  | .delta => "/muse/elements/delta_relative"
  | .theta => "/muse/elements/theta_relative"
  | .alpha => "/muse/elements/alpha_relative"
  | .beta => "/muse/elements/beta_relative"
  | .gamma => "/muse/elements/gamma_relative"

/-- The band-event arm of MuseHandler.handleOSCMessage: each of the five
relative band addresses stores parseValue(args) via updateBand; every other
address leaves the band state unchanged (the remaining switch arms write
only fields outside this model). -/
def MuseHandler.handleOSCMessage (st : MuseBandState) (address : String)
    (args : List JSNum) : MuseBandState :=
  if address = bandAddress .delta then
    MuseHandler.updateBand st .delta (MuseHandler.parseValue args)
  else if address = bandAddress .theta then
    MuseHandler.updateBand st .theta (MuseHandler.parseValue args)
  else if address = bandAddress .alpha then
    MuseHandler.updateBand st .alpha (MuseHandler.parseValue args)
  else if address = bandAddress .beta then
    MuseHandler.updateBand st .beta (MuseHandler.parseValue args)
  else if address = bandAddress .gamma then
    MuseHandler.updateBand st .gamma (MuseHandler.parseValue args)
  else st

/-- Reading a band after writing one: the new value at the written band,
the old value elsewhere. -/
theorem getBand_setBand (b : BrainwaveBands) (x y : Band) (v : ℚ) :
    (b.setBand x v).getBand y = if x = y then v else b.getBand y := by
  cases x <;> cases y <;>
    simp [BrainwaveBands.getBand, BrainwaveBands.setBand]

/-- The clamp of updateBand always lands in the unit interval. -/
theorem clamp01_mem (v : ℚ) :
    0 ≤ max 0 (min 1 v) ∧ max 0 (min 1 v) ≤ 1 :=
  ⟨le_max_left 0 _, max_le (by norm_num) (min_le_left 1 v)⟩

/-- Every band of a state, raw and smoothed, lies in the unit interval. -/
def BandStateIn01 (st : MuseBandState) : Prop :=
  ∀ band : Band,
    0 ≤ st.bands.getBand band ∧ st.bands.getBand band ≤ 1 ∧
    0 ≤ st.bandsSmooth.getBand band ∧ st.bandsSmooth.getBand band ≤ 1

/-- updateBand preserves the unit-interval invariant: the raw store is
clamped, and the EMA is a convex combination of two unit-interval values. -/
theorem updateBand_preserves_in01 (st : MuseBandState) (band : Band) (v : ℚ)
    (h : BandStateIn01 st) :
    BandStateIn01 (MuseHandler.updateBand st band v) := by
  intro b
  obtain ⟨hr0, hr1, hs0, hs1⟩ := h b
  obtain ⟨hsb0, hsb1⟩ := (h band).2.2
  unfold MuseHandler.updateBand
  dsimp only
  rw [getBand_setBand, getBand_setBand]
  by_cases hb : band = b
  · subst hb
    simp only [if_pos rfl, eq_self_iff_true, if_true]
    refine ⟨(clamp01_mem v).1, (clamp01_mem v).2, ?_, ?_⟩
    · have := (clamp01_mem v).1
      rw [MuseHandler.smoothingFactor]
      nlinarith
    · have := (clamp01_mem v).2
      rw [MuseHandler.smoothingFactor]
      nlinarith
  · simp only [if_neg hb]
    exact ⟨hr0, hr1, hs0, hs1⟩

/-- Apply a sequence of updateBand calls. -/
def applyBandUpdates (st : MuseBandState) (l : List (Band × ℚ)) :
    MuseBandState :=
  l.foldl (fun s p => MuseHandler.updateBand s p.1 p.2) st

/-- C10: starting from the all-zero initial band state, after any sequence
of updateBand calls with arbitrary rational inputs, every stored raw band
value and every EMA-smoothed band value lies in the unit interval: the raw
input is clamped before storing and the EMA smoothed*0.85 + raw*0.15 is a
convex combination of values already in the interval. -/
theorem updateBand_unit_interval (l : List (Band × ℚ)) (band : Band) :
    0 ≤ (applyBandUpdates MuseBandState.initial l).bands.getBand band ∧
    (applyBandUpdates MuseBandState.initial l).bands.getBand band ≤ 1 ∧
    0 ≤ (applyBandUpdates MuseBandState.initial l).bandsSmooth.getBand band ∧
    (applyBandUpdates MuseBandState.initial l).bandsSmooth.getBand band ≤ 1 := by
  have hinit : BandStateIn01 MuseBandState.initial := by
    intro b
    cases b <;>
      simp [MuseBandState.initial, zeroBands, BrainwaveBands.getBand]
  have := foldl_preserve BandStateIn01
    (fun s (p : Band × ℚ) => MuseHandler.updateBand s p.1 p.2)
    (fun s p hp => updateBand_preserves_in01 s p.1 p.2 hp)
    l MuseBandState.initial hinit
  exact this band

/-- Counterexample to C6 as stated: a NaN-only alpha event is not discarded
— the prior alpha value 0.7 is overwritten with 0 — and an out-of-range
value 5 is not discarded either — it is clamped to 1 and stored. -/
theorem osc_malformed_not_discarded :
    (MuseHandler.handleOSCMessage
      ⟨⟨0, 0, 0.7, 0, 0⟩, ⟨0, 0, 0.7, 0, 0⟩, ⟨[], [], [], [], []⟩⟩
      "/muse/elements/alpha_relative" [JSNum.nan]).bands.alpha = 0 ∧
    (0 : ℚ) ≠ 0.7 ∧
    (MuseHandler.handleOSCMessage
      ⟨⟨0, 0, 0.7, 0, 0⟩, ⟨0, 0, 0.7, 0, 0⟩, ⟨[], [], [], [], []⟩⟩
      "/muse/elements/alpha_relative" [JSNum.num 5]).bands.alpha = 1 ∧
    (1 : ℚ) ≠ 0.7 := by
  refine ⟨by with_unfolding_all decide, by norm_num,
    by with_unfolding_all decide, by norm_num⟩

/-- C6 (amended): a band-power event is never discarded; instead, NaN and
non-finite entries are filtered from the argument array, an event with no
finite entry is applied with the value 0, and the parsed value is clamped
to the unit interval and stored, overwriting the prior raw band value (the
other bands are untouched). -/
theorem osc_band_event_clamped_stored (st : MuseBandState) (b : Band)
    (args : List JSNum) :
    ((args.filterMap JSNum.finite?).length = 0 →
      (MuseHandler.handleOSCMessage st (bandAddress b) args).bands.getBand b
        = 0) ∧
    (MuseHandler.handleOSCMessage st (bandAddress b) args).bands.getBand b
      = max 0 (min 1 (MuseHandler.parseValue args)) ∧
    0 ≤ (MuseHandler.handleOSCMessage st (bandAddress b) args).bands.getBand b ∧
    (MuseHandler.handleOSCMessage st (bandAddress b) args).bands.getBand b ≤ 1 ∧
    (∀ b' : Band, b' ≠ b →
      (MuseHandler.handleOSCMessage st (bandAddress b) args).bands.getBand b'
        = st.bands.getBand b') := by
  have hstore : (MuseHandler.handleOSCMessage st (bandAddress b) args).bands
      = st.bands.setBand b (max 0 (min 1 (MuseHandler.parseValue args))) := by
    cases b <;>
      simp [MuseHandler.handleOSCMessage, bandAddress, MuseHandler.updateBand]
  refine ⟨?_, ?_, ?_, ?_, ?_⟩
  · intro hempty
    rw [hstore, getBand_setBand, if_pos rfl]
    rw [show MuseHandler.parseValue args = 0 from by
      simp [MuseHandler.parseValue, hempty]]
    norm_num
  · rw [hstore, getBand_setBand, if_pos rfl]
  · rw [hstore, getBand_setBand, if_pos rfl]
    exact (clamp01_mem _).1
  · rw [hstore, getBand_setBand, if_pos rfl]
    exact (clamp01_mem _).2
  · intro b' hb'
    rw [hstore, getBand_setBand, if_neg (fun h => hb' h.symm)]

/-- Witness for the amended C6: the all-NaN alpha event stores 0 while the
delta band is untouched. -/
theorem osc_band_event_clamped_stored_witness :
    (MuseHandler.handleOSCMessage MuseBandState.initial
      (bandAddress Band.alpha) [JSNum.nan]).bands.getBand Band.alpha = 0 ∧
    (MuseHandler.handleOSCMessage MuseBandState.initial
        (bandAddress Band.alpha) [JSNum.nan]).bands.getBand Band.delta
      = MuseBandState.initial.bands.getBand Band.delta :=
  ⟨(osc_band_event_clamped_stored MuseBandState.initial Band.alpha
      [JSNum.nan]).1 (by with_unfolding_all decide),
   (osc_band_event_clamped_stored MuseBandState.initial Band.alpha
      [JSNum.nan]).2.2.2.2 Band.delta (by with_unfolding_all decide)⟩

/-- All entries of a list are zero. -/
def AllZero (l : List ℚ) : Prop := ∀ x ∈ l, x = 0

/-- Reading anywhere in an all-zero list gives zero (out of range included). -/
theorem allZero_listGet {l : List ℚ} (h : AllZero l) : ∀ i, listGet l i = 0 := by
  induction l with
  | nil => intro i; simp [listGet]
  | cons x xs ih =>
    intro i
    match i with
    | 0 => exact h x (List.mem_cons_self _ _)
    | i + 1 =>
      rw [show listGet (x :: xs) (i + 1) = listGet xs i from by simp [listGet]]
      exact ih (fun y hy => h y (List.mem_cons_of_mem _ hy)) i

/-- Writing a zero into an all-zero list keeps it all-zero. -/
theorem allZero_set {l : List ℚ} (h : AllZero l) (i : ℕ) {v : ℚ} (hv : v = 0) :
    AllZero (l.set i v) := by
  intro x hx
  rcases List.mem_or_eq_of_mem_set hx with hx | rfl
  · exact h x hx
  · exact hv

/-- Swapping cells of an all-zero list keeps it all-zero. -/
theorem allZero_listSwap {l : List ℚ} (h : AllZero l) (i j : ℕ) :
    AllZero (listSwap l i j) := by
  unfold listSwap
  exact allZero_set (allZero_set h i (allZero_listGet h j)) j
    (allZero_listGet h i)

/-- A list all of whose reads are zero is all-zero. -/
theorem allZero_of_forall_get : ∀ {l : List ℚ},
    (∀ i, listGet l i = 0) → AllZero l := by
  intro l
  induction l with
  | nil => intro _ x hx; simp at hx
  | cons a as ih =>
    intro h x hx
    rcases List.mem_cons.mp hx with rfl | hx
    · exact h 0
    · exact ih (fun i => by simpa [listGet] using h (i + 1)) x hx

/-- Both scratch halves are all-zero. -/
def AllZero2 (p : List ℚ × List ℚ) : Prop := AllZero p.1 ∧ AllZero p.2

/-- A butterfly on all-zero scratch writes only zeros. -/
theorem allZero_butterfly (cosT sinT : List ℚ) (halfSize i jj kk : ℕ)
    (p : List ℚ × List ℚ) (h : AllZero2 p) :
    AllZero2 (butterfly cosT sinT halfSize i jj kk p) := by
  obtain ⟨h1, h2⟩ := h
  unfold butterfly
  dsimp only
  simp only [allZero_listGet h1, allZero_listGet h2, zero_mul, zero_add,
    add_zero, sub_zero, zero_sub, neg_zero]
  have h1' : AllZero (p.1.set (i + jj + halfSize) 0) := allZero_set h1 _ rfl
  have h2' : AllZero (p.2.set (i + jj + halfSize) 0) := allZero_set h2 _ rfl
  simp only [allZero_listGet h1', allZero_listGet h2', add_zero, zero_add]
  exact ⟨allZero_set h1' _ rfl, allZero_set h2' _ rfl⟩

/-- A butterfly group preserves all-zero scratch. -/
theorem allZero_butterflyInner (cosT sinT : List ℚ) (halfSize step i : ℕ)
    (p : List ℚ × List ℚ) (h : AllZero2 p) :
    AllZero2 (butterflyInner cosT sinT halfSize step i p) := by
  unfold butterflyInner
  exact foldl_preserve AllZero2 _
    (fun b a hb => allZero_butterfly cosT sinT halfSize i a (a * step) b hb)
    (List.range halfSize) p h

/-- One stage preserves all-zero scratch. -/
theorem allZero_butterflyStage (cosT sinT : List ℚ) (n size : ℕ)
    (p : List ℚ × List ℚ) (h : AllZero2 p) :
    AllZero2 (butterflyStage cosT sinT n size p) := by
  unfold butterflyStage
  exact foldl_preserve AllZero2 _
    (fun b a hb => allZero_butterflyInner cosT sinT (size / 2) (n / size) a b hb)
    _ p h

/-- The stage loop preserves all-zero scratch. -/
theorem allZero_fftStages (cosT sinT : List ℚ) (n : ℕ)
    (p : List ℚ × List ℚ) (h : AllZero2 p) :
    AllZero2 (fftStages cosT sinT n p) := by
  unfold fftStages
  exact foldl_preserve AllZero2 _
    (fun b a hb => allZero_butterflyStage cosT sinT n a b hb)
    _ p h

/-- The bit-reversal permutation preserves all-zero scratch. -/
theorem allZero_bitReverse (n : ℕ) (re im : List ℚ)
    (h1 : AllZero re) (h2 : AllZero im) :
    AllZero2 (bitReverse n re im) := by
  unfold bitReverse
  refine foldl_preserve (fun (st : (List ℚ × List ℚ) × ℕ) => AllZero2 st.1)
    _ ?_ (List.range (n - 1)) ((re, im), 0) ⟨h1, h2⟩
  intro b a hb
  dsimp only
  by_cases hc : a < b.2
  · simp only [if_pos hc]
    exact ⟨allZero_listSwap hb.1 a b.2, allZero_listSwap hb.2 a b.2⟩
  · simpa [if_neg hc] using hb

/-- The windowing pass over an all-zero sample window, into scratch arrays
of the transform size, leaves only zeros. -/
theorem initPass_allZero (n : ℕ) (w samples re im : List ℚ)
    (hs : AllZero samples) (hre : re.length = n) (him : im.length = n) :
    AllZero (initPass n w samples re im).1 ∧
    AllZero (initPass n w samples re im).2 := by
  constructor
  · apply allZero_of_forall_get
    intro j
    rw [(initPass_get n w samples re im).1 j]
    split_ifs with hc
    · rw [show samples.getD j 0 = listGet samples j from rfl,
        allZero_listGet hs, zero_mul]
    · exact listGet_past_length re j (by omega)
  · apply allZero_of_forall_get
    intro j
    rw [(initPass_get n w samples re im).2 j]
    split_ifs with hc
    · rfl
    · exact listGet_past_length im j (by omega)

/-- An all-zero sample window yields an all-zero magnitude spectrum,
provided the square root maps 0 to 0. -/
theorem compute_allZero (tb : FFTTables) (sq : ℚ → ℚ) (st : FFTScratch)
    (samples : List ℚ) (hsq : sq 0 = 0) (hs : AllZero samples)
    (hre : st.real.length = tb.size) (him : st.imag.length = tb.size) :
    AllZero (FFTProcessor.compute tb sq st samples).2 := by
  unfold FFTProcessor.compute
  dsimp only
  have hp1 := initPass_allZero tb.size tb.window samples st.real st.imag
    hs hre him
  have hp2 := allZero_bitReverse tb.size _ _ hp1.1 hp1.2
  have hp3 := allZero_fftStages tb.cosTable tb.sinTable tb.size _ hp2
  intro x hx
  obtain ⟨i, _, rfl⟩ := List.mem_map.mp hx
  rw [allZero_listGet hp3.1, allZero_listGet hp3.2]
  simpa using hsq

/-- Any band-power average over an all-zero spectrum is zero. -/
theorem getBandPower_allZero (size : ℕ) (mags : List ℚ) (low high : ℚ)
    (h : AllZero mags) :
    FFTProcessor.getBandPower size mags low high = 0 := by
  unfold FFTProcessor.getBandPower
  dsimp only
  have hsum : (((List.range mags.length).filter
      fun (i : ℕ) => decide (max 1 ⌊low / (SAMPLE_RATE / size)⌋ ≤ (i : ℤ))
        && decide ((i : ℤ) ≤ ⌈high / (SAMPLE_RATE / size)⌉)).map
      fun i => listGet mags i * listGet mags i).sum = 0 := by
    apply List.sum_eq_zero
    intro x hx
    obtain ⟨i, _, rfl⟩ := List.mem_map.mp hx
    rw [allZero_listGet h, zero_mul]
  rw [hsum]
  split_ifs <;> simp

/-- The high-pass recurrence started from zero carries over an all-zero
input produces only zeros. -/
theorem allZero_hpfAux (a : ℚ) : ∀ (l : List ℚ), AllZero l →
    ∀ pF pS : ℚ, pF = 0 → pS = 0 → AllZero (hpfAux a pF pS l) := by
  intro l
  induction l with
  | nil => intro _ pF pS _ _ x hx; simp [hpfAux] at hx
  | cons s rest ih =>
    intro h pF pS hF hS x hx
    have hs0 : s = 0 := h s (List.mem_cons_self _ _)
    rw [hpfAux] at hx
    rcases List.mem_cons.mp hx with rfl | hx
    · rw [hF, hS, hs0]; ring
    · refine ih (fun y hy => h y (List.mem_cons_of_mem _ hy)) _ _ ?_ hs0 x hx
      rw [hF, hS, hs0]; ring

/-- The high-pass filter of an all-zero window is all-zero. -/
theorem allZero_highPassFilter (a : ℚ) (samples : List ℚ)
    (h : AllZero samples) :
    AllZero (FFTProcessor.highPassFilter a samples) := by
  cases samples with
  | nil =>
    intro x hx
    rw [FFTProcessor.highPassFilter] at hx
    simpa using List.mem_singleton.mp hx
  | cons s rest =>
    intro x hx
    rw [FFTProcessor.highPassFilter] at hx
    rcases List.mem_cons.mp hx with rfl | hx
    · rfl
    · exact allZero_hpfAux a rest
        (fun y hy => h y (List.mem_cons_of_mem _ hy)) 0 s rfl
        (h s (List.mem_cons_self _ _)) x hx

/-- Folding a step that preserves a property for elements of the list. -/
theorem foldl_preserve_mem {α β : Type} (P : β → Prop) (f : β → α → β) :
    ∀ (l : List α), (∀ b a, a ∈ l → P b → P (f b a)) →
      ∀ b, P b → P (l.foldl f b) := by
  intro l
  induction l with
  | nil => intro _ b hb; exact hb
  | cons x xs ih =>
    intro hf b hb
    exact ih (fun b a ha hb => hf b a (List.mem_cons_of_mem _ ha) hb) _
      (hf b x (List.mem_cons_self _ _) hb)

/-- The channel loop over all-zero buffers accumulates zero band-power sums
and keeps the scratch sized to the transform. -/
theorem accumulatePowers_allZero (tb : FFTTables) (sq : ℚ → ℚ) (hpfA : ℚ)
    (scratch : FFTScratch) (buffers : List (List ℚ)) (hsq : sq 0 = 0)
    (hre : scratch.real.length = tb.size) (him : scratch.imag.length = tb.size)
    (hbuf : ∀ buf ∈ buffers, AllZero buf) :
    (MuseHandler.accumulatePowers tb sq hpfA scratch buffers).2.1
      = zeroBands := by
  unfold MuseHandler.accumulatePowers
  refine (foldl_preserve_mem
    (fun (acc : FFTScratch × BrainwaveBands × ℕ) =>
      acc.1.real.length = tb.size ∧ acc.1.imag.length = tb.size ∧
      acc.2.1 = zeroBands)
    _ buffers ?_ (scratch, zeroBands, 0) ⟨hre, him, rfl⟩).2.2
  · intro acc buf hmem hacc
    dsimp only
    by_cases hlen : buf.length < tb.size
    · simpa [if_pos hlen] using hacc
    · simp only [if_neg hlen]
      have hfz : AllZero (FFTProcessor.highPassFilter hpfA buf) :=
        allZero_highPassFilter hpfA buf (hbuf buf hmem)
      have hmz : AllZero
          (FFTProcessor.compute tb sq acc.1
            (FFTProcessor.highPassFilter hpfA buf)).2 :=
        compute_allZero tb sq acc.1 _ hsq hfz hacc.1 hacc.2.1
      refine ⟨?_, ?_, ?_⟩
      · rw [MuseHandler.channelBandPowers]
        dsimp only
        rw [(compute_scratch_length tb sq acc.1 _).1, hacc.1]
      · rw [MuseHandler.channelBandPowers]
        dsimp only
        rw [(compute_scratch_length tb sq acc.1 _).2, hacc.2.1]
      · rw [MuseHandler.channelBandPowers]
        dsimp only
        rw [hacc.2.2]
        simp [zeroBands, getBandPower_allZero _ _ _ _ hmz]

/-- C5: processing an all-zero raw sample window across all channels leaves
the band state exactly at its pre-call value: the corrected total power is
zero, so the band update is skipped entirely and no relative power is ever
computed from the zero denominator. -/
theorem processBluetoothFFT_allzero_skips (tb : FFTTables) (sq : ℚ → ℚ)
    (hpfA : ℚ) (scratch : FFTScratch) (st : MuseBandState)
    (buffers : List (List ℚ)) (hsq : sq 0 = 0)
    (hre : scratch.real.length = tb.size) (him : scratch.imag.length = tb.size)
    (hbuf : ∀ buf ∈ buffers, ∀ x ∈ buf, x = 0) :
    bandsTotal (MuseHandler.correctedPowers
      (MuseHandler.accumulatePowers tb sq hpfA scratch buffers).2.1
      (MuseHandler.accumulatePowers tb sq hpfA scratch buffers).2.2) = 0 ∧
    (MuseHandler.processBluetoothFFT tb sq hpfA scratch st buffers).1 = st := by
  have hz := accumulatePowers_allZero tb sq hpfA scratch buffers hsq hre him
    hbuf
  have htot : bandsTotal (MuseHandler.correctedPowers
      (MuseHandler.accumulatePowers tb sq hpfA scratch buffers).2.1
      (MuseHandler.accumulatePowers tb sq hpfA scratch buffers).2.2) = 0 := by
    rw [hz]
    simp [MuseHandler.correctedPowers, bandsTotal, zeroBands]
  refine ⟨htot, ?_⟩
  unfold MuseHandler.processBluetoothFFT
  dsimp only
  split_ifs with hn hpos
  · rfl
  · exfalso
    rw [htot] at hpos
    exact absurd hpos (lt_irrefl 0)
  · rfl

/-- Witness for C5: a concrete size-4 pipeline with one all-zero channel,
dirty scratch and arbitrary integer tables leaves the initial band state
unchanged and reports zero corrected total power. -/
theorem processBluetoothFFT_allzero_skips_witness :
    bandsTotal (MuseHandler.correctedPowers
      (MuseHandler.accumulatePowers ⟨4, [1, 0], [0, 1], [1, 1, 1, 1]⟩ id 1
        ⟨[1, 2, 3, 4], [5, 6, 7, 8]⟩ [[0, 0, 0, 0], [], [], []]).2.1
      (MuseHandler.accumulatePowers ⟨4, [1, 0], [0, 1], [1, 1, 1, 1]⟩ id 1
        ⟨[1, 2, 3, 4], [5, 6, 7, 8]⟩ [[0, 0, 0, 0], [], [], []]).2.2) = 0 ∧
    (MuseHandler.processBluetoothFFT ⟨4, [1, 0], [0, 1], [1, 1, 1, 1]⟩ id 1
      ⟨[1, 2, 3, 4], [5, 6, 7, 8]⟩ MuseBandState.initial
      [[0, 0, 0, 0], [], [], []]).1 = MuseBandState.initial :=
  processBluetoothFFT_allzero_skips ⟨4, [1, 0], [0, 1], [1, 1, 1, 1]⟩ id 1
    ⟨[1, 2, 3, 4], [5, 6, 7, 8]⟩ MuseBandState.initial
    [[0, 0, 0, 0], [], [], []] rfl rfl rfl (by with_unfolding_all decide)

/-- A band-power average is never negative: it averages squares. -/
theorem getBandPower_nonneg (size : ℕ) (mags : List ℚ) (low high : ℚ) :
    0 ≤ FFTProcessor.getBandPower size mags low high := by
  unfold FFTProcessor.getBandPower
  dsimp only
  split_ifs with h
  · apply div_nonneg
    · apply List.sum_nonneg
      intro x hx
      obtain ⟨i, _, rfl⟩ := List.mem_map.mp hx
      exact mul_self_nonneg _
    · positivity
  · exact le_refl 0

/-- All five fields are nonnegative. -/
def BandsNonneg (b : BrainwaveBands) : Prop :=
  0 ≤ b.delta ∧ 0 ≤ b.theta ∧ 0 ≤ b.alpha ∧ 0 ≤ b.beta ∧ 0 ≤ b.gamma

/-- The accumulated channel band-power sums are nonnegative. -/
theorem accumulatePowers_nonneg (tb : FFTTables) (sq : ℚ → ℚ) (hpfA : ℚ)
    (scratch : FFTScratch) (buffers : List (List ℚ)) :
    BandsNonneg (MuseHandler.accumulatePowers tb sq hpfA scratch buffers).2.1 := by
  unfold MuseHandler.accumulatePowers
  refine foldl_preserve
    (fun (acc : FFTScratch × BrainwaveBands × ℕ) => BandsNonneg acc.2.1)
    _ ?_ buffers (scratch, zeroBands, 0) ?_
  · intro b a hb
    dsimp only
    by_cases hlen : a.length < tb.size
    · simpa [if_pos hlen] using hb
    · simp only [if_neg hlen]
      unfold MuseHandler.channelBandPowers
      dsimp only
      obtain ⟨n1, n2, n3, n4, n5⟩ := hb
      exact ⟨add_nonneg n1 (getBandPower_nonneg _ _ _ _),
        add_nonneg n2 (getBandPower_nonneg _ _ _ _),
        add_nonneg n3 (getBandPower_nonneg _ _ _ _),
        add_nonneg n4 (getBandPower_nonneg _ _ _ _),
        add_nonneg n5 (getBandPower_nonneg _ _ _ _)⟩
  · exact ⟨le_refl 0, le_refl 0, le_refl 0, le_refl 0, le_refl 0⟩

/-- Averaging and slope correction keep the powers nonnegative. -/
theorem correctedPowers_nonneg (sums : BrainwaveBands) (n : ℕ)
    (h : BandsNonneg sums) :
    BandsNonneg (MuseHandler.correctedPowers sums n) := by
  obtain ⟨n1, n2, n3, n4, n5⟩ := h
  unfold MuseHandler.correctedPowers
  have hn : (0 : ℚ) ≤ (n : ℚ) := Nat.cast_nonneg n
  exact ⟨div_nonneg n1 hn,
    mul_nonneg (div_nonneg n2 hn) (by norm_num),
    mul_nonneg (div_nonneg n3 hn) (by norm_num),
    mul_nonneg (div_nonneg n4 hn) (by norm_num),
    mul_nonneg (div_nonneg n5 hn) (by norm_num)⟩

/-- The corrected powers of processBluetoothFFT (channel sums averaged over
the valid-channel count, then slope-corrected). -/
def MuseHandler.fftCorrected (tb : FFTTables) (sq : ℚ → ℚ) (hpfA : ℚ)
    (scratch : FFTScratch) (buffers : List (List ℚ)) : BrainwaveBands :=
  MuseHandler.correctedPowers
    (MuseHandler.accumulatePowers tb sq hpfA scratch buffers).2.1
    (MuseHandler.accumulatePowers tb sq hpfA scratch buffers).2.2

/-- The raw bands after the five sequential updateBand calls of an applied
FFT update. -/
theorem updateBand_five (st : MuseBandState) (vd vt va vb vg : ℚ) :
    (MuseHandler.updateBand (MuseHandler.updateBand (MuseHandler.updateBand
      (MuseHandler.updateBand (MuseHandler.updateBand st .delta vd) .theta vt)
      .alpha va) .beta vb) .gamma vg).bands
    = ⟨max 0 (min 1 vd), max 0 (min 1 vt), max 0 (min 1 va),
       max 0 (min 1 vb), max 0 (min 1 vg)⟩ := by
  simp [MuseHandler.updateBand, BrainwaveBands.setBand, BrainwaveBands.getBand]

/-- The clamp is the identity on the unit interval. -/
theorem clamp01_id (q : ℚ) (h0 : 0 ≤ q) (h1 : q ≤ 1) :
    max 0 (min 1 q) = q := by
  rw [min_eq_right h1, max_eq_right h0]

/-- Each band's share of a nonnegative total lies in the unit interval. -/
theorem bands_ratio_bounds (c : BrainwaveBands) (h : BandsNonneg c)
    (hpos : 0 < bandsTotal c) :
    ∀ band : Band, 0 ≤ c.getBand band / bandsTotal c ∧
      c.getBand band / bandsTotal c ≤ 1 := by
  obtain ⟨k1, k2, k3, k4, k5⟩ := h
  have hT : 0 < c.delta + c.theta + c.alpha + c.beta + c.gamma := by
    rw [bandsTotal] at hpos
    exact hpos
  intro band
  cases band <;>
    simp only [BrainwaveBands.getBand] <;>
    exact ⟨div_nonneg (by assumption) (le_of_lt hpos),
      by rw [div_le_one hpos, bandsTotal]; linarith⟩

/-- C7: for every applied FFT band update (positive corrected total power,
so the update is not skipped), each stored raw relative band power equals
its slope-corrected power divided by the total — the clamp to the unit
interval applied before storing is the identity here because the quotient
already lies in the interval — and the five stored raw values sum to
exactly 1. -/
theorem fft_relative_powers_sum_one (tb : FFTTables) (sq : ℚ → ℚ)
    (hpfA : ℚ) (scratch : FFTScratch) (st : MuseBandState)
    (buffers : List (List ℚ))
    (hpos : 0 < bandsTotal (MuseHandler.fftCorrected tb sq hpfA scratch buffers)) :
    (∀ band : Band,
      (MuseHandler.processBluetoothFFT tb sq hpfA scratch st
          buffers).1.bands.getBand band
        = (MuseHandler.fftCorrected tb sq hpfA scratch buffers).getBand band
          / bandsTotal (MuseHandler.fftCorrected tb sq hpfA scratch buffers) ∧
      (MuseHandler.processBluetoothFFT tb sq hpfA scratch st
          buffers).1.bands.getBand band
        = max 0 (min 1
            ((MuseHandler.fftCorrected tb sq hpfA scratch buffers).getBand band
              / bandsTotal (MuseHandler.fftCorrected tb sq hpfA scratch
                  buffers)))) ∧
    bandsTotal (MuseHandler.processBluetoothFFT tb sq hpfA scratch st
      buffers).1.bands = 1 := by
  have hnn := correctedPowers_nonneg
    (MuseHandler.accumulatePowers tb sq hpfA scratch buffers).2.1
    (MuseHandler.accumulatePowers tb sq hpfA scratch buffers).2.2
    (accumulatePowers_nonneg tb sq hpfA scratch buffers)
  rw [MuseHandler.fftCorrected] at hpos
  have hn0 : (MuseHandler.accumulatePowers tb sq hpfA scratch buffers).2.2
      ≠ 0 := by
    intro h0
    rw [h0] at hpos
    simp [MuseHandler.correctedPowers, bandsTotal] at hpos
  have hratio := bands_ratio_bounds _ hnn hpos
  unfold MuseHandler.processBluetoothFFT
  simp only [MuseHandler.fftCorrected]
  split_ifs with h0
  · exact absurd h0 hn0
  · rw [updateBand_five]
    constructor
    · intro band
      have hb := hratio band
      cases band <;>
        simp only [BrainwaveBands.getBand] at hb ⊢ <;>
        exact ⟨clamp01_id _ hb.1 hb.2, trivial⟩
    · have e1 := hratio Band.delta
      have e2 := hratio Band.theta
      have e3 := hratio Band.alpha
      have e4 := hratio Band.beta
      have e5 := hratio Band.gamma
      simp only [BrainwaveBands.getBand] at e1 e2 e3 e4 e5
      rw [bandsTotal]
      dsimp only
      rw [clamp01_id _ e1.1 e1.2, clamp01_id _ e2.1 e2.2,
        clamp01_id _ e3.1 e3.2, clamp01_id _ e4.1 e4.2,
        clamp01_id _ e5.1 e5.2]
      rw [div_add_div_same, div_add_div_same, div_add_div_same,
        div_add_div_same]
      exact div_self (ne_of_gt hpos)

/-- Witness for C7: a concrete size-4 pipeline with one valid channel has
positive corrected total power, and the five stored relative band values
sum to exactly 1. -/
theorem fft_relative_powers_sum_one_witness :
    bandsTotal (MuseHandler.processBluetoothFFT
      ⟨4, [1, 0], [0, 1], [1, 1, 1, 1]⟩ id 1 ⟨[0, 0, 0, 0], [0, 0, 0, 0]⟩
      MuseBandState.initial [[4, 0, 0, 0], [], [], []]).1.bands = 1 :=
  (fft_relative_powers_sum_one ⟨4, [1, 0], [0, 1], [1, 1, 1, 1]⟩ id 1
    ⟨[0, 0, 0, 0], [0, 0, 0, 0]⟩ MuseBandState.initial
    [[4, 0, 0, 0], [], [], []] (by with_unfolding_all decide)).2
